import Mathlib

/-!
# Verification of the any-agent Sandboxed Tool Execution Supervisor

A shallow embedding, in Lean 4, of the core of the any-agent repository:
the Docker attach-stream demultiplexer, the workspace store (paths, file
writes, artifact categorization and URLs), the request-validation schemas,
the tool registry, and the request dispatcher's validation/assembly logic.

Conventions used throughout:
* machine bytes are `Nat` values `< 256`; buffers are `List Nat`;
* JavaScript `Map`s and plain objects used as dictionaries are association
  lists with JS insertion semantics (`mapSet` updates an existing key in
  place, otherwise appends; enumeration order is insertion order);
* fallible parsing returns `Option`;
* the filesystem is an explicit association list from path to byte content;
* environment-derived configuration (the storage root) is passed explicitly.
-/

/-! ## Association maps with JavaScript `Map`/object semantics -/

/-- `m.set(k, v)` of a JS `Map` (also `obj[k] = v` of a plain object used as a
dictionary): if `k` is already a key, replace its value in place; otherwise
append the new entry at the end (JS preserves insertion order). -/
def mapSet {α : Type} : List (String × α) → String → α → List (String × α)
  | [], k, v => [(k, v)]
  | (k', v') :: rest, k, v =>
    if k' = k then (k, v) :: rest else (k', v') :: mapSet rest k v

/-- `m.get(k)` of a JS `Map` (`undefined` becomes `none`). -/
def mapGet {α : Type} : List (String × α) → String → Option α
  | [], _ => none
  | (k', v') :: rest, k => if k' = k then some v' else mapGet rest k

/-- The keys of the map, in insertion order (`Array.from(m.keys())`). -/
def mapKeys {α : Type} (m : List (String × α)) : List String :=
  m.map Prod.fst

theorem mapGet_mapSet_self {α : Type} (m : List (String × α)) (k : String) (v : α) :
    mapGet (mapSet m k v) k = some v := by
  induction m with
  | nil => simp [mapSet, mapGet]
  | cons p rest ih =>
    obtain ⟨k', v'⟩ := p
    by_cases h : k' = k <;> simp [mapSet, mapGet, h, ih]

theorem mapGet_mapSet_ne {α : Type} (m : List (String × α)) (k k' : String) (v : α)
    (h : k' ≠ k) : mapGet (mapSet m k v) k' = mapGet m k' := by
  have h' : ¬ k = k' := fun hh => h hh.symm
  induction m with
  | nil => simp [mapSet, mapGet, h']
  | cons p rest ih =>
    obtain ⟨k₀, v₀⟩ := p
    by_cases h₀ : k₀ = k
    · subst h₀
      simp [mapSet, mapGet, h']
    · simp [mapSet, mapGet, h₀, ih]

theorem mapSet_eq_append {α : Type} (m : List (String × α)) (k : String) (v : α)
    (h : k ∉ mapKeys m) : mapSet m k v = m ++ [(k, v)] := by
  induction m with
  | nil => simp [mapSet]
  | cons p rest ih =>
    obtain ⟨k', v'⟩ := p
    simp only [mapKeys, List.map_cons, List.mem_cons] at h
    push_neg at h
    have h1 : ¬ k' = k := fun hh => h.1 hh.symm
    simp [mapSet, h1, ih (by simpa [mapKeys] using h.2)]

theorem mapKeys_mapSet {α : Type} (m : List (String × α)) (k : String) (v : α) :
    mapKeys (mapSet m k v) = if k ∈ mapKeys m then mapKeys m else mapKeys m ++ [k] := by
  induction m with
  | nil => simp [mapSet, mapKeys]
  | cons p rest ih =>
    obtain ⟨k', v'⟩ := p
    by_cases h : k' = k
    · subst h
      simp [mapSet, mapKeys]
    · have h' : ¬ k = k' := fun hh => h hh.symm
      simp only [mapSet, if_neg h, mapKeys, List.map_cons, List.mem_cons]
      rcases Decidable.em (k ∈ mapKeys rest) with hm | hm
      · simp [mapKeys] at ih hm ⊢
        simp [ih, hm, h']
      · simp [mapKeys] at ih hm ⊢
        simp [ih, hm, h']

theorem mapKeys_mapSet_nodup {α : Type} (m : List (String × α)) (k : String) (v : α)
    (h : (mapKeys m).Nodup) : (mapKeys (mapSet m k v)).Nodup := by
  rw [mapKeys_mapSet]
  rcases Decidable.em (k ∈ mapKeys m) with hm | hm
  · simpa [hm]
  · simp [hm, List.nodup_append, h, List.disjoint_singleton]

/-! ## Stream Demultiplexer

`demuxDockerStream` (identical in
`packages/tools/supervisor/src/tools/code-execution.ts` and in
`DocumentConverterTool`) walks one delivered chunk with an `offset` cursor:
it needs at least 8 header bytes (`offset + 8 > chunk.length` breaks), reads
the stream-type tag at byte 0 and a big-endian `uint32` payload size at
bytes 4..7, breaks if the full payload is not in this chunk, otherwise
pushes the payload onto the stdout array (tag 1), the stderr array (tag 2),
or neither (any other tag), and advances to `offset + 8 + payloadSize`.

The embedding recurses on the suffix of the chunk instead of carrying an
offset, which is the same traversal; the `fuel` argument (initialised to
the chunk length, an upper bound on the number of loop iterations because
every iteration consumes at least 8 bytes) only makes the recursion
structural, it never runs out before the loop's own exit conditions fire. -/

/-- `chunk.readUInt8(i)` on a Node buffer (in-range reads only are used). -/
def byteAt (chunk : List Nat) (i : Nat) : Nat := chunk.getD i 0

/-- `chunk.readUInt32BE(offset)`: 4 bytes, big-endian. -/
def readUInt32BE (b0 b1 b2 b3 : Nat) : Nat :=
  ((b0 * 256 + b1) * 256 + b2) * 256 + b3

/-- The body of `demuxDockerStream`'s `while` loop, one delivered chunk. -/
def demuxGo : Nat → List Nat → List (List Nat) → List (List Nat) →
    List (List Nat) × List (List Nat)
  | 0, _, stdoutChunks, stderrChunks => (stdoutChunks, stderrChunks)
  | fuel + 1, chunk, stdoutChunks, stderrChunks =>
    if chunk.length < 8 then (stdoutChunks, stderrChunks)
    else
      let streamType := byteAt chunk 0
      let payloadSize :=
        readUInt32BE (byteAt chunk 4) (byteAt chunk 5) (byteAt chunk 6) (byteAt chunk 7)
      if chunk.length < 8 + payloadSize then (stdoutChunks, stderrChunks)
      else
        let payload := (chunk.drop 8).take payloadSize
        let rest := chunk.drop (8 + payloadSize)
        if streamType = 1 then demuxGo fuel rest (stdoutChunks ++ [payload]) stderrChunks
        else if streamType = 2 then demuxGo fuel rest stdoutChunks (stderrChunks ++ [payload])
        else demuxGo fuel rest stdoutChunks stderrChunks

/-- One call of `demuxDockerStream(chunk, stdoutChunks, stderrChunks)`,
returning the two accumulator arrays after the call. Note the function keeps
no state between calls: whatever trailing bytes the loop did not consume are
simply forgotten when the call returns. -/
def demuxDockerStream (chunk : List Nat) (stdoutChunks stderrChunks : List (List Nat)) :
    List (List Nat) × List (List Nat) :=
  demuxGo chunk.length chunk stdoutChunks stderrChunks

/-- The `stream.on("data", chunk => this.demuxDockerStream(chunk, stdoutChunks,
stderrChunks))` wiring: each delivered chunk is fed to `demuxDockerStream`
against the same pair of accumulator arrays. -/
def demuxChunks (chunks : List (List Nat)) (stdoutChunks stderrChunks : List (List Nat)) :
    List (List Nat) × List (List Nat) :=
  chunks.foldl (fun acc c => demuxDockerStream c acc.1 acc.2) (stdoutChunks, stderrChunks)

/-- One frame of the Docker attach-stream protocol: a stream-type tag byte and
a payload (the 8-byte header carries the tag, three reserved zero bytes and the
payload length). -/
structure DockerFrame where
  tag : Nat
  payload : List Nat
deriving DecidableEq

/-- The wire bytes of one frame: tag, three reserved zero bytes, the 4-byte
big-endian payload length, then the payload. -/
def frameBytes (f : DockerFrame) : List Nat :=
  f.tag :: 0 :: 0 :: 0 ::
    (f.payload.length / 2 ^ 24 % 256) :: (f.payload.length / 2 ^ 16 % 256) ::
    (f.payload.length / 2 ^ 8 % 256) :: (f.payload.length % 256) :: f.payload

/-- The byte stream of a sequence of frames. -/
def framesBytes (fs : List DockerFrame) : List Nat :=
  (fs.map frameBytes).flatten

/-- A well-formed frame: the tag is one byte, the payload is made of bytes,
and the payload length is representable in the 4-byte length field. -/
def wfFrame (f : DockerFrame) : Prop :=
  f.tag < 256 ∧ (∀ b ∈ f.payload, b < 256) ∧ f.payload.length < 2 ^ 32

instance (f : DockerFrame) : Decidable (wfFrame f) := by
  unfold wfFrame
  infer_instance

theorem readUInt32BE_encode (n : Nat) (h : n < 2 ^ 32) :
    readUInt32BE (n / 2 ^ 24 % 256) (n / 2 ^ 16 % 256) (n / 2 ^ 8 % 256) (n % 256) = n := by
  unfold readUInt32BE
  omega

theorem demuxGo_fuel {fuel₁ fuel₂ : Nat} (chunk : List Nat)
    (stdoutChunks stderrChunks : List (List Nat))
    (h₁ : chunk.length ≤ fuel₁) (h₂ : chunk.length ≤ fuel₂) :
    demuxGo fuel₁ chunk stdoutChunks stderrChunks =
      demuxGo fuel₂ chunk stdoutChunks stderrChunks := by
  induction fuel₁ generalizing fuel₂ chunk stdoutChunks stderrChunks with
  | zero =>
    have hnil : chunk = [] := List.length_eq_zero.mp (Nat.le_zero.mp h₁)
    subst hnil
    cases fuel₂ <;> simp [demuxGo]
  | succ fuel₁ ih =>
    cases fuel₂ with
    | zero =>
      have hnil : chunk = [] := List.length_eq_zero.mp (Nat.le_zero.mp h₂)
      subst hnil
      simp [demuxGo]
    | succ fuel₂ =>
      by_cases hlen : chunk.length < 8
      · simp [demuxGo, hlen]
      · simp only [demuxGo, if_neg hlen]
        set payloadSize :=
          readUInt32BE (byteAt chunk 4) (byteAt chunk 5) (byteAt chunk 6) (byteAt chunk 7)
          with hps
        by_cases hfull : chunk.length < 8 + payloadSize
        · simp [hfull]
        · simp only [if_neg hfull]
          have hrest : (chunk.drop (8 + payloadSize)).length ≤ fuel₁ := by
            simp only [List.length_drop]
            omega
          have hrest' : (chunk.drop (8 + payloadSize)).length ≤ fuel₂ := by
            simp only [List.length_drop]
            omega
          by_cases ht1 : byteAt chunk 0 = 1
          · simp [ht1, ih _ _ _ hrest hrest']
          · by_cases ht2 : byteAt chunk 0 = 2 <;>
              simp [ht1, ht2, ih _ _ _ hrest hrest']

theorem demux_cons_frame (f : DockerFrame) (rest : List Nat)
    (stdoutChunks stderrChunks : List (List Nat)) (hlen : f.payload.length < 2 ^ 32) :
    demuxDockerStream (frameBytes f ++ rest) stdoutChunks stderrChunks =
      if f.tag = 1 then demuxDockerStream rest (stdoutChunks ++ [f.payload]) stderrChunks
      else if f.tag = 2 then demuxDockerStream rest stdoutChunks (stderrChunks ++ [f.payload])
      else demuxDockerStream rest stdoutChunks stderrChunks := by
  have hlen8 : (frameBytes f ++ rest).length = 8 + f.payload.length + rest.length := by
    simp [frameBytes]
    omega
  have hshape : ∃ fuel, (frameBytes f ++ rest).length = fuel + 1 :=
    ⟨7 + f.payload.length + rest.length, by omega⟩
  obtain ⟨fuel, hfuel⟩ := hshape
  have hbyte0 : byteAt (frameBytes f ++ rest) 0 = f.tag := by
    simp [frameBytes, byteAt]
  have hbyte4 : byteAt (frameBytes f ++ rest) 4 = f.payload.length / 2 ^ 24 % 256 := by
    simp [frameBytes, byteAt]
  have hbyte5 : byteAt (frameBytes f ++ rest) 5 = f.payload.length / 2 ^ 16 % 256 := by
    simp [frameBytes, byteAt]
  have hbyte6 : byteAt (frameBytes f ++ rest) 6 = f.payload.length / 2 ^ 8 % 256 := by
    simp [frameBytes, byteAt]
  have hbyte7 : byteAt (frameBytes f ++ rest) 7 = f.payload.length % 256 := by
    simp [frameBytes, byteAt]
  have hsize :
      readUInt32BE (byteAt (frameBytes f ++ rest) 4) (byteAt (frameBytes f ++ rest) 5)
        (byteAt (frameBytes f ++ rest) 6) (byteAt (frameBytes f ++ rest) 7) =
        f.payload.length := by
    rw [hbyte4, hbyte5, hbyte6, hbyte7, readUInt32BE_encode _ hlen]
  have hdrop8 : (frameBytes f ++ rest).drop 8 = f.payload ++ rest := by
    simp [frameBytes]
  have htake : ((frameBytes f ++ rest).drop 8).take f.payload.length = f.payload := by
    rw [hdrop8]
    exact List.take_left _ _
  have hdropAll : (frameBytes f ++ rest).drop (8 + f.payload.length) = rest := by
    rw [← List.drop_drop, hdrop8]
    exact List.drop_left _ _
  unfold demuxDockerStream
  rw [hfuel]
  simp only [demuxGo, hbyte0, hsize]
  have hnotShort : ¬ (frameBytes f ++ rest).length < 8 := by omega
  have hnotPartial : ¬ (frameBytes f ++ rest).length < 8 + f.payload.length := by omega
  simp only [if_neg hnotShort, if_neg hnotPartial, htake, hdropAll]
  have hrestLen : rest.length ≤ fuel := by omega
  by_cases ht1 : f.tag = 1
  · simp [ht1, demuxGo_fuel rest _ _ hrestLen (le_refl _)]
  · by_cases ht2 : f.tag = 2 <;>
      simp [ht1, ht2, demuxGo_fuel rest _ _ hrestLen (le_refl _)]

/-- C8: given a single chunk that is a concatenation of complete frames,
`demuxDockerStream` appends each frame's payload (whose length is the 4-byte
big-endian value at header bytes 4..7) to the stdout accumulator when the tag
byte is 1 and to the stderr accumulator when the tag byte is 2, preserving
frame order within each accumulator; frames with any other tag contribute to
neither accumulator but are skipped so that the following frames are still
processed. -/
theorem demuxDockerStream_complete_frames (fs : List DockerFrame)
    (stdoutChunks stderrChunks : List (List Nat)) (hwf : ∀ f ∈ fs, wfFrame f) :
    demuxDockerStream (framesBytes fs) stdoutChunks stderrChunks =
      (stdoutChunks ++ (fs.filter (fun f => f.tag == 1)).map DockerFrame.payload,
       stderrChunks ++ (fs.filter (fun f => f.tag == 2)).map DockerFrame.payload) := by
  induction fs generalizing stdoutChunks stderrChunks with
  | nil => simp [framesBytes, demuxDockerStream, demuxGo]
  | cons f fs ih =>
    have hf : wfFrame f := hwf f (by simp)
    have hfs : ∀ g ∈ fs, wfFrame g := fun g hg => hwf g (by simp [hg])
    have hjoin : framesBytes (f :: fs) = frameBytes f ++ framesBytes fs := by
      simp [framesBytes]
    rw [hjoin, demux_cons_frame f _ _ _ hf.2.2]
    by_cases ht1 : f.tag = 1
    · simp [ht1, ih _ _ hfs, List.filter_cons]
    · by_cases ht2 : f.tag = 2 <;>
        simp [ht1, ht2, ih _ _ hfs, List.filter_cons]

/-- Witness for C8 at a concrete frame sequence: a stdout frame "Hi", a stderr
frame "E", a frame with unknown tag 7 that is skipped, then another stdout
frame, demultiplexed in order. -/
theorem demuxDockerStream_complete_frames_witness :
    demuxDockerStream
      (framesBytes [⟨1, [72, 105]⟩, ⟨2, [69]⟩, ⟨7, [9, 9, 9]⟩, ⟨1, [10]⟩]) [] [] =
      ([[72, 105], [10]], [[69]]) := by
  rw [demuxDockerStream_complete_frames
    [⟨1, [72, 105]⟩, ⟨2, [69]⟩, ⟨7, [9, 9, 9]⟩, ⟨1, [10]⟩] [] [] (by decide)]
  decide

/-- C1: the claimed chunking-invariance fails on the code. `demuxDockerStream`
keeps no buffer between calls, so a well-formed frame split across two chunks
is silently dropped: the 9-byte stdout frame with payload byte 65, fed whole,
yields stdout payload `[65]`, but fed as an 8-byte chunk followed by a 1-byte
chunk it yields nothing — the first call breaks on the incomplete payload and
forgets the header, the second call breaks on an incomplete header. -/
theorem demuxDockerStream_chunk_split_drops_bytes :
    demuxDockerStream ([1, 0, 0, 0, 0, 0, 0, 1] ++ [65]) [] [] = ([[65]], []) ∧
    demuxChunks [[1, 0, 0, 0, 0, 0, 0, 1], [65]] [] [] = ([], []) ∧
    demuxChunks [[1, 0, 0, 0, 0, 0, 0, 1], [65]] [] [] ≠
      demuxDockerStream ([1, 0, 0, 0, 0, 0, 0, 1] ++ [65]) [] [] := by
  decide

/-! ## Workspace Store (`packages/core/src/storage.ts`)

Paths are built with Node's `path.join`, embedded for already-normalized,
non-empty segments as concatenation with a `/` separator. The storage root
(`getBaseStorageDir()`, read from the `AA_STORAGE_PATH` environment variable
or defaulted) is passed around explicitly as `base`. The filesystem is an
association list from absolute path to byte content; `Bun.write` is modelled
per its documented semantics: it stores a `Buffer`'s bytes verbatim and a
string's UTF-8 encoding, replacing any existing file at that path. -/

/-- `path.join(a, b)` for non-empty, already-normalized segments. -/
def pathJoin (a b : String) : String := a ++ "/" ++ b

/-- `getSessionDir(sessionId)`: `<base>/<sessionId>`. -/
def getSessionDir (base sessionId : String) : String := pathJoin base sessionId

/-- `getJobWorkDir(sessionId, jobId)`: `<base>/<sessionId>/job-<jobId>`. -/
def getJobWorkDir (base sessionId jobId : String) : String :=
  pathJoin (getSessionDir base sessionId) ("job-" ++ jobId)

/-- `getArtifactPath(sessionId, jobId, filename)`. -/
def getArtifactPath (base sessionId jobId filename : String) : String :=
  pathJoin (getJobWorkDir base sessionId jobId) filename

/-- `generateArtifactUrl(protocol, host, sessionId, jobId, filename)`:
the template string
`protocol://host/artifacts/sessionId/jobId/filename`. -/
def generateArtifactUrl (protocol host sessionId jobId filename : String) : String :=
  protocol ++ "://" ++ host ++ "/artifacts/" ++ sessionId ++ "/" ++ jobId ++ "/" ++ filename

/-- The `string | Buffer` content union accepted by `writeWorkspaceFile`. -/
inductive FileContent where
  | text (s : String)
  | binary (b : List Nat)
deriving DecidableEq

/-- The bytes that end up on disk: a `Buffer` is written verbatim, a string is
written as its UTF-8 encoding. -/
def contentBytes : FileContent → List Nat
  | .text s => s.toUTF8.toList.map (fun b => b.toNat)
  | .binary b => b

/-- A filesystem: a map from absolute file path to stored bytes. -/
abbrev FileSystem := List (String × List Nat)

/-- Modelled `Bun.write(Bun.file(filePath), content)`: store the content's
bytes at the path, overwriting any previous file there. -/
def bunWrite (fs : FileSystem) (filePath : String) (content : FileContent) : FileSystem :=
  mapSet fs filePath (contentBytes content)

/-- `writeWorkspaceFile(workDir, filename, content)`: joins the path, writes
through `Bun.write`, and returns the file path (the `chownToStorageOwner`
step only adjusts ownership metadata, not content, and is not modelled). -/
def writeWorkspaceFile (fs : FileSystem) (workDir filename : String)
    (content : FileContent) : FileSystem × String :=
  (bunWrite fs (pathJoin workDir filename) content, pathJoin workDir filename)

/-- Reading a file back: the bytes stored at the path, if any. -/
def readFileBytes (fs : FileSystem) (filePath : String) : Option (List Nat) :=
  mapGet fs filePath

/-- C9: `writeWorkspaceFile` followed by reading the file back yields
byte-for-byte identical content for every binary buffer — in particular for
the buffer containing every byte value 0–255 — with no encoding coercion,
and writing to a filename that already exists in the workspace overwrites
the previous content. -/
theorem writeWorkspaceFile_binary_roundtrip (fs : FileSystem) (workDir filename : String)
    (b prev : List Nat) :
    readFileBytes (writeWorkspaceFile fs workDir filename (.binary b)).1
        (writeWorkspaceFile fs workDir filename (.binary b)).2 = some b ∧
    (writeWorkspaceFile (writeWorkspaceFile fs workDir filename (.binary prev)).1
        workDir filename (.binary b)).1 =
      (writeWorkspaceFile fs workDir filename (.binary b)).1 ∧
    readFileBytes (writeWorkspaceFile (writeWorkspaceFile fs workDir filename (.binary prev)).1
        workDir filename (.binary b)).1
        (pathJoin workDir filename) = some b ∧
    readFileBytes (writeWorkspaceFile [] "/ws" "bytes.bin"
        (.binary (List.range 256))).1 (pathJoin "/ws" "bytes.bin") =
      some (List.range 256) := by
  refine ⟨?_, ?_, ?_, ?_⟩
  · simp [writeWorkspaceFile, bunWrite, readFileBytes, contentBytes, mapGet_mapSet_self]
  · simp only [writeWorkspaceFile, bunWrite, contentBytes]
    induction fs with
    | nil => simp [mapSet]
    | cons p rest ih =>
      obtain ⟨k, v⟩ := p
      by_cases h : k = pathJoin workDir filename <;> simp [mapSet, h, ih]
  · simp [writeWorkspaceFile, bunWrite, readFileBytes, contentBytes, mapGet_mapSet_self]
  · simp [writeWorkspaceFile, bunWrite, readFileBytes, contentBytes, mapGet_mapSet_self]

/-! ## Artifact categorization (`categorizeArtifacts` in storage.ts)

The source iterates over `files` with a `for` loop, assigning
`inputs[file] = url` when `inputFiles.has(file)` and `outputs[file] = url`
otherwise; the loop is embedded as recursion over the file list carrying the
two record accumulators, and the `Set<string>` as a list with membership. -/

/-- The body of `categorizeArtifacts`' `for` loop. -/
def categorizeGo (inputFiles : List String) (protocol host sessionId jobId : String) :
    List String → List (String × String) → List (String × String) →
    List (String × String) × List (String × String)
  | [], inputs, outputs => (inputs, outputs)
  | file :: rest, inputs, outputs =>
    let url := generateArtifactUrl protocol host sessionId jobId file
    if file ∈ inputFiles then
      categorizeGo inputFiles protocol host sessionId jobId rest (mapSet inputs file url) outputs
    else
      categorizeGo inputFiles protocol host sessionId jobId rest inputs (mapSet outputs file url)

/-- `categorizeArtifacts(files, inputFiles, protocol, host, sessionId, jobId)`. -/
def categorizeArtifacts (files : List String) (inputFiles : List String)
    (protocol host sessionId jobId : String) :
    List (String × String) × List (String × String) :=
  categorizeGo inputFiles protocol host sessionId jobId files [] []

theorem categorizeGo_spec (inputFiles : List String) (protocol host sessionId jobId : String)
    (files : List String) (inputs outputs : List (String × String))
    (hnd : files.Nodup)
    (hin : ∀ f ∈ files, f ∉ mapKeys inputs) (hout : ∀ f ∈ files, f ∉ mapKeys outputs) :
    categorizeGo inputFiles protocol host sessionId jobId files inputs outputs =
      (inputs ++ (files.filter (fun f => decide (f ∈ inputFiles))).map
          (fun f => (f, generateArtifactUrl protocol host sessionId jobId f)),
       outputs ++ (files.filter (fun f => !decide (f ∈ inputFiles))).map
          (fun f => (f, generateArtifactUrl protocol host sessionId jobId f))) := by
  induction files generalizing inputs outputs with
  | nil => simp [categorizeGo]
  | cons file rest ih =>
    have hndRest : rest.Nodup := (List.nodup_cons.mp hnd).2
    have hfile : file ∉ rest := (List.nodup_cons.mp hnd).1
    by_cases hmem : file ∈ inputFiles
    · have hset : mapSet inputs file (generateArtifactUrl protocol host sessionId jobId file) =
          inputs ++ [(file, generateArtifactUrl protocol host sessionId jobId file)] :=
        mapSet_eq_append _ _ _ (hin file (by simp))
      have hin' : ∀ f ∈ rest, f ∉ mapKeys
          (inputs ++ [(file, generateArtifactUrl protocol host sessionId jobId file)]) := by
        intro f hf
        simp only [mapKeys, List.map_append, List.mem_append, List.map_cons, List.map_nil,
          List.mem_singleton]
        push_neg
        exact ⟨by simpa [mapKeys] using hin f (by simp [hf]),
          fun hEq => hfile (hEq ▸ hf)⟩
      have hout' : ∀ f ∈ rest, f ∉ mapKeys outputs := fun f hf => hout f (by simp [hf])
      simp only [categorizeGo, if_pos hmem, hset]
      rw [ih _ _ hndRest hin' hout']
      simp [hmem, List.filter_cons]
    · have hset : mapSet outputs file (generateArtifactUrl protocol host sessionId jobId file) =
          outputs ++ [(file, generateArtifactUrl protocol host sessionId jobId file)] :=
        mapSet_eq_append _ _ _ (hout file (by simp))
      have hout' : ∀ f ∈ rest, f ∉ mapKeys
          (outputs ++ [(file, generateArtifactUrl protocol host sessionId jobId file)]) := by
        intro f hf
        simp only [mapKeys, List.map_append, List.mem_append, List.map_cons, List.map_nil,
          List.mem_singleton]
        push_neg
        exact ⟨by simpa [mapKeys] using hout f (by simp [hf]),
          fun hEq => hfile (hEq ▸ hf)⟩
      have hin' : ∀ f ∈ rest, f ∉ mapKeys inputs := fun f hf => hin f (by simp [hf])
      simp only [categorizeGo, if_neg hmem, hset]
      rw [ih _ _ hndRest hin' hout']
      simp [hmem, List.filter_cons]

theorem mapGet_of_graph (l : List String) (g : String → String) (f : String)
    (hf : f ∈ l) :
    mapGet (l.map (fun x => (x, g x))) f = some (g f) := by
  induction l with
  | nil => simp at hf
  | cons x rest ih =>
    by_cases h : x = f
    · simp [mapGet, h]
    · have : f ∈ rest := by
        rcases List.mem_cons.mp hf with h' | h'
        · exact absurd h'.symm h
        · exact h'
      simp [mapGet, h, ih this]

/-- C3: for every list of distinct filenames, every input-filename set and
every protocol/host/sessionId/jobId, the pure function `categorizeArtifacts`
partitions the filenames: each listed file is a key of exactly one of the two
returned records (`inputs` exactly when it is a member of `inputFiles`), no
key of either record is outside the list, and every file maps to its
`generateArtifactUrl`. -/
theorem categorizeArtifacts_partitions (files inputFiles : List String)
    (protocol host sessionId jobId : String) (hnd : files.Nodup) :
    (∀ f ∈ files,
      (f ∈ mapKeys (categorizeArtifacts files inputFiles protocol host sessionId jobId).1 ↔
        f ∈ inputFiles) ∧
      (f ∈ mapKeys (categorizeArtifacts files inputFiles protocol host sessionId jobId).2 ↔
        f ∉ inputFiles)) ∧
    (∀ f, f ∈ mapKeys (categorizeArtifacts files inputFiles protocol host sessionId jobId).1 →
      f ∈ files) ∧
    (∀ f, f ∈ mapKeys (categorizeArtifacts files inputFiles protocol host sessionId jobId).2 →
      f ∈ files) ∧
    (∀ f ∈ files, f ∈ inputFiles →
      mapGet (categorizeArtifacts files inputFiles protocol host sessionId jobId).1 f =
        some (generateArtifactUrl protocol host sessionId jobId f)) ∧
    (∀ f ∈ files, f ∉ inputFiles →
      mapGet (categorizeArtifacts files inputFiles protocol host sessionId jobId).2 f =
        some (generateArtifactUrl protocol host sessionId jobId f)) := by
  have hchar := categorizeGo_spec inputFiles protocol host sessionId jobId files [] []
    hnd (by simp [mapKeys]) (by simp [mapKeys])
  have h1 : (categorizeArtifacts files inputFiles protocol host sessionId jobId).1 =
      (files.filter (fun f => decide (f ∈ inputFiles))).map
        (fun f => (f, generateArtifactUrl protocol host sessionId jobId f)) := by
    simp [categorizeArtifacts, hchar]
  have h2 : (categorizeArtifacts files inputFiles protocol host sessionId jobId).2 =
      (files.filter (fun f => !decide (f ∈ inputFiles))).map
        (fun f => (f, generateArtifactUrl protocol host sessionId jobId f)) := by
    simp [categorizeArtifacts, hchar]
  have hkeys1 : mapKeys (categorizeArtifacts files inputFiles protocol host sessionId jobId).1 =
      files.filter (fun f => decide (f ∈ inputFiles)) := by
    simp only [h1, mapKeys, List.map_map]
    exact List.map_id _ ▸ (by simp [Function.comp_def])
  have hkeys2 : mapKeys (categorizeArtifacts files inputFiles protocol host sessionId jobId).2 =
      files.filter (fun f => !decide (f ∈ inputFiles)) := by
    simp only [h2, mapKeys, List.map_map]
    exact List.map_id _ ▸ (by simp [Function.comp_def])
  refine ⟨?_, ?_, ?_, ?_, ?_⟩
  · intro f hf
    constructor
    · rw [hkeys1]
      constructor
      · intro h
        simpa using (List.mem_filter.mp h).2
      · intro h
        exact List.mem_filter.mpr ⟨hf, by simpa using h⟩
    · rw [hkeys2]
      constructor
      · intro h
        simpa using (List.mem_filter.mp h).2
      · intro h
        exact List.mem_filter.mpr ⟨hf, by simpa using h⟩
  · intro f hf
    rw [hkeys1] at hf
    exact (List.mem_filter.mp hf).1
  · intro f hf
    rw [hkeys2] at hf
    exact (List.mem_filter.mp hf).1
  · intro f hf hin
    rw [h1]
    exact mapGet_of_graph _ _ _ (List.mem_filter.mpr ⟨hf, by simpa using hin⟩)
  · intro f hf hout
    rw [h2]
    exact mapGet_of_graph _ _ _ (List.mem_filter.mpr ⟨hf, by simpa using hout⟩)

/-- Witness for C3: the workspace listing `[a.py, stdout, stderr]` with input
set `{a.py}` maps `a.py` into `inputs` and `stdout` into `outputs`, each at
its artifact URL. -/
theorem categorizeArtifacts_partitions_witness :
    mapGet (categorizeArtifacts ["a.py", "stdout", "stderr"] ["a.py"]
        "http" "localhost:8080" "s1" "j1").1 "a.py" =
      some (generateArtifactUrl "http" "localhost:8080" "s1" "j1" "a.py") ∧
    mapGet (categorizeArtifacts ["a.py", "stdout", "stderr"] ["a.py"]
        "http" "localhost:8080" "s1" "j1").2 "stdout" =
      some (generateArtifactUrl "http" "localhost:8080" "s1" "j1" "stdout") := by
  have h := categorizeArtifacts_partitions ["a.py", "stdout", "stderr"] ["a.py"]
    "http" "localhost:8080" "s1" "j1" (by decide)
  exact ⟨h.2.2.2.1 "a.py" (by decide) (by decide),
    h.2.2.2.2 "stdout" (by decide) (by decide)⟩

/-! ## Artifact download route (`GET /artifacts/:sessionId/:jobId/:filename`)

The Fastify route in the supervisor's `index.ts` extracts the three named
parameters from the request path and feeds them to `getArtifactPath`. Route
matching is modelled at the character level: the request path is the URL
minus `protocol://host`, cut at the first `?` (query string) or `#`
(fragment, which a client never sends as part of the path); it matches when
the path splits on `/` into exactly an empty leading segment, the literal
`artifacts`, and three non-empty parameter segments (a Fastify named
parameter matches one non-empty raw segment and never crosses a `/`), and
each extracted parameter is percent-decoded by the router before use, as
`decodeURIComponent` does for single-byte sequences (a `%` not followed by
two hex digits passes through undecoded). -/

/-- Split a character list into its `/`-separated segments. -/
def splitSeg : List Char → List (List Char)
  | [] => [[]]
  | c :: cs =>
    if c = '/' then [] :: splitSeg cs
    else (c :: (splitSeg cs).headI) :: (splitSeg cs).tail

/-- Remove an exact leading character sequence, or fail. -/
def dropPre : List Char → List Char → Option (List Char)
  | [], s => some s
  | _ :: _, [] => none
  | p :: ps, c :: cs => if c = p then dropPre ps cs else none

/-- The value of a hexadecimal digit character, if it is one. -/
def hexVal (c : Char) : Option Nat :=
  if '0' ≤ c ∧ c ≤ '9' then some (c.toNat - '0'.toNat)
  else if 'a' ≤ c ∧ c ≤ 'f' then some (c.toNat - 'a'.toNat + 10)
  else if 'A' ≤ c ∧ c ≤ 'F' then some (c.toNat - 'A'.toNat + 10)
  else none

/-- The router's percent-decoding of an extracted path parameter: a `%`
followed by two hex digits becomes the encoded character
(`decodeURIComponent` restricted to single-byte sequences); anything else
passes through unchanged. -/
def percentDecode : List Char → List Char
  | [] => []
  | c :: rest =>
    if c = '%' then
      match rest with
      | c₁ :: c₂ :: rest' =>
        match hexVal c₁, hexVal c₂ with
        | some h₁, some h₂ => Char.ofNat (16 * h₁ + h₂) :: percentDecode rest'
        | _, _ => c :: percentDecode (c₁ :: c₂ :: rest')
      | other => c :: percentDecode other
    else c :: percentDecode rest

theorem percentDecode_no_percent (l : List Char) (h : '%' ∉ l) : percentDecode l = l := by
  induction l with
  | nil => simp [percentDecode]
  | cons c rest ih =>
    have hc : ¬ c = '%' := fun hh => h (by simp [hh])
    have hrest : '%' ∉ rest := fun hh => h (by simp [hh])
    unfold percentDecode
    simp [hc, ih hrest]

/-- The route resolution for `GET /artifacts/:sessionId/:jobId/:filename`:
from a full URL, strip `protocol://host`, cut the path at any query string
or fragment, match it against the route pattern, and percent-decode the
three extracted parameters as the router does. -/
def resolveArtifactUrl (protocol host url : String) : Option (String × String × String) :=
  match dropPre (protocol ++ "://" ++ host).data url.data with
  | none => none
  | some pathChars =>
    match splitSeg (pathChars.takeWhile (fun c => c ≠ '?' ∧ c ≠ '#')) with
    | [e₀, e₁, s, j, f] =>
      if e₀ = [] ∧ e₁ = "artifacts".data ∧ s ≠ [] ∧ j ≠ [] ∧ f ≠ [] then
        some (String.mk (percentDecode s), String.mk (percentDecode j),
          String.mk (percentDecode f))
      else none
    | _ => none

theorem splitSeg_cons_slash (cs : List Char) : splitSeg ('/' :: cs) = [] :: splitSeg cs := by
  simp [splitSeg]

theorem splitSeg_no_slash (l : List Char) (h : '/' ∉ l) : splitSeg l = [l] := by
  induction l with
  | nil => simp [splitSeg]
  | cons c cs ih =>
    have hc : ¬ c = '/' := fun hh => h (by simp [hh])
    have hcs : '/' ∉ cs := fun hh => h (by simp [hh])
    simp [splitSeg, hc, ih hcs]

theorem splitSeg_append_slash (xs ys : List Char) (h : '/' ∉ xs) :
    splitSeg (xs ++ '/' :: ys) = xs :: splitSeg ys := by
  induction xs with
  | nil => simp [splitSeg_cons_slash]
  | cons x xs ih =>
    have hx : ¬ x = '/' := fun hh => h (by simp [hh])
    have hxs : '/' ∉ xs := fun hh => h (by simp [hh])
    simp [splitSeg, hx, ih hxs]

theorem dropPre_append (pre rest : List Char) : dropPre pre (pre ++ rest) = some rest := by
  induction pre with
  | nil => simp [dropPre]
  | cons p ps ih => simp [dropPre, ih]

/-- C7 counterexample: the claimed for-every-filename round trip between
`generateArtifactUrl` and the download route fails twice over. A filename
containing `/` does not resolve at all (the path has six segments, the
route pattern matches exactly five); and since `generateArtifactUrl` never
encodes while the router percent-decodes every extracted parameter, the
filename `doc%20final.pdf` — stored verbatim by `writeWorkspaceFile` —
resolves to the decoded parameter `doc final.pdf` and hence to a different
physical path than the one the file was stored at. -/
theorem generateArtifactUrl_roundtrip_fails_on_slash :
    resolveArtifactUrl "http" "localhost:8080"
      (generateArtifactUrl "http" "localhost:8080" "s" "j" "a/b") = none ∧
    resolveArtifactUrl "http" "localhost:8080"
      (generateArtifactUrl "http" "localhost:8080" "s" "j" "doc%20final.pdf") =
      some ("s", "j", "doc final.pdf") ∧
    getArtifactPath "/root/.aa-storage" "s" "j" "doc final.pdf" ≠
      (writeWorkspaceFile [] (getJobWorkDir "/root/.aa-storage" "s" "j") "doc%20final.pdf"
        (.binary [1])).2 := by
  refine ⟨by decide, by decide, by decide⟩

theorem takeWhile_of_all (p : Char → Bool) (l : List Char) (h : ∀ x ∈ l, p x = true) :
    l.takeWhile p = l := by
  induction l with
  | nil => simp
  | cons c cs ih =>
    simp [List.takeWhile_cons, h c (by simp), ih (fun x hx => h x (by simp [hx]))]

/-- C7 as amended: for a session id, job id and filename that are non-empty
and free of `/`, `?`, `%` and `#` (host likewise free of them),
`generateArtifactUrl` is deterministic (it is a function) and the URL it
produces resolves back, via the route's parameter extraction (including its
percent-decoding) and `getArtifactPath`, to exactly the physical path at
which `writeWorkspaceFile` stored that filename in that job's workspace. -/
theorem generateArtifactUrl_roundtrip (base protocol host sessionId jobId filename : String)
    (fs : FileSystem) (content : FileContent)
    (hhost : '/' ∉ host.data ∧ '?' ∉ host.data ∧ '%' ∉ host.data ∧ '#' ∉ host.data)
    (hsess : sessionId ≠ "" ∧ '/' ∉ sessionId.data ∧ '?' ∉ sessionId.data ∧
      '%' ∉ sessionId.data ∧ '#' ∉ sessionId.data)
    (hjob : jobId ≠ "" ∧ '/' ∉ jobId.data ∧ '?' ∉ jobId.data ∧
      '%' ∉ jobId.data ∧ '#' ∉ jobId.data)
    (hfile : filename ≠ "" ∧ '/' ∉ filename.data ∧ '?' ∉ filename.data ∧
      '%' ∉ filename.data ∧ '#' ∉ filename.data) :
    resolveArtifactUrl protocol host
      (generateArtifactUrl protocol host sessionId jobId filename) =
      some (sessionId, jobId, filename) ∧
    getArtifactPath base sessionId jobId filename =
      (writeWorkspaceFile fs (getJobWorkDir base sessionId jobId) filename content).2 := by
  obtain ⟨hs₁, hs₂, hs₃, hs₄, hs₅⟩ := hsess
  obtain ⟨hj₁, hj₂, hj₃, hj₄, hj₅⟩ := hjob
  obtain ⟨hf₁, hf₂, hf₃, hf₄, hf₅⟩ := hfile
  refine ⟨?_, rfl⟩
  have hsd : sessionId.data ≠ [] := by
    intro hnil
    apply hs₁
    cases sessionId with
    | mk l =>
      simp only at hnil
      rw [hnil]
  have hjd : jobId.data ≠ [] := by
    intro hnil
    apply hj₁
    cases jobId with
    | mk l =>
      simp only at hnil
      rw [hnil]
  have hfd : filename.data ≠ [] := by
    intro hnil
    apply hf₁
    cases filename with
    | mk l =>
      simp only at hnil
      rw [hnil]
  have hdata : (generateArtifactUrl protocol host sessionId jobId filename).data =
      (protocol ++ "://" ++ host).data ++
        ('/' :: ("artifacts".data ++ '/' ::
          (sessionId.data ++ '/' :: (jobId.data ++ '/' :: filename.data)))) := by
    have l2 : ("/artifacts/" : String).data =
        '/' :: ("artifacts".data ++ ['/']) := rfl
    have l3 : ("/" : String).data = ['/'] := rfl
    simp [generateArtifactUrl, String.data_append, l2, l3]
  have hq : ∀ x ∈ ('/' :: ("artifacts".data ++ '/' ::
      (sessionId.data ++ '/' :: (jobId.data ++ '/' :: filename.data)))),
      (fun c => decide (c ≠ '?' ∧ c ≠ '#')) x = true := by
    intro x hx
    simp only [List.mem_cons, List.mem_append] at hx
    simp only [decide_eq_true_eq, ne_eq]
    rcases hx with h | h | h | h | h | h | h
    · subst h; decide
    · refine ⟨?_, ?_⟩ <;>
        (intro he; subst he; revert h; decide)
    · subst h; decide
    · exact ⟨fun he => hs₃ (he ▸ h), fun he => hs₅ (he ▸ h)⟩
    · subst h; decide
    · exact ⟨fun he => hj₃ (he ▸ h), fun he => hj₅ (he ▸ h)⟩
    · rcases h with h | h
      · subst h; decide
      · exact ⟨fun he => hf₃ (he ▸ h), fun he => hf₅ (he ▸ h)⟩
  have hsplit : splitSeg ('/' :: ("artifacts".data ++ '/' ::
      (sessionId.data ++ '/' :: (jobId.data ++ '/' :: filename.data)))) =
      [[], "artifacts".data, sessionId.data, jobId.data, filename.data] := by
    rw [splitSeg_cons_slash,
      splitSeg_append_slash _ _ (by decide),
      splitSeg_append_slash _ _ hs₂,
      splitSeg_append_slash _ _ hj₂,
      splitSeg_no_slash _ hf₂]
  simp only [resolveArtifactUrl, hdata, dropPre_append, takeWhile_of_all _ _ hq, hsplit]
  simp [hsd, hjd, hfd, percentDecode_no_percent _ hs₄, percentDecode_no_percent _ hj₄,
    percentDecode_no_percent _ hf₄]

/-- Witness for C7 at concrete values: the URL generated for session `s1`,
job `j1`, file `out.md` resolves back to the stored workspace path. -/
theorem generateArtifactUrl_roundtrip_witness :
    resolveArtifactUrl "http" "localhost:8080"
      (generateArtifactUrl "http" "localhost:8080" "s1" "j1" "out.md") =
      some ("s1", "j1", "out.md") ∧
    getArtifactPath "/root/.aa-storage" "s1" "j1" "out.md" =
      (writeWorkspaceFile [] (getJobWorkDir "/root/.aa-storage" "s1" "j1") "out.md"
        (.binary [1])).2 := by
  exact generateArtifactUrl_roundtrip "/root/.aa-storage" "http" "localhost:8080"
    "s1" "j1" "out.md" [] (.binary [1])
    (by decide) (by decide) (by decide) (by decide)

/-! ## Request schemas (`packages/core/src/schemas.ts`)

A request body is modelled as the record of the JSON fields the schemas
look at, each optional (an absent key is `none`; zod object schemas ignore
keys they do not declare, which the closed record captures by construction).

`ToolRequestSchemaAgentParams` requires a non-empty `tool`, a non-empty
`sessionId` and an integer `timeout` in `[1, 900]` defaulting to 30.
`ToolRequestSchema` is `z.union([CodeExecutionInputSchema,
DocumentConverterInputSchema])` — a plain union with no discriminator: it
tries the code-execution variant first and falls back to the
document-converter variant. -/

/-- The `z.enum(["python", "node", "bun", "bash"])` language values. -/
inductive CodeLanguage where
  | python
  | node
  | bun
  | bash
deriving DecidableEq

/-- A parsed `CodeExecutionInputSchema` value. -/
structure CodeExecutionInput where
  language : CodeLanguage
  code : String
  filename : String
deriving DecidableEq

/-- A parsed `DocumentConverterInputSchema` value. -/
structure DocumentConverterInput where
  fileContent : String
  filename : String
  conversionScript : String
deriving DecidableEq

/-- A parsed `ToolRequestSchemaAgentParams` value. -/
structure AgentParams where
  tool : String
  sessionId : String
  timeout : Int
deriving DecidableEq

/-- The JSON fields of a `POST /tools/execute` body that any of the schemas
declare; every field is optional in the raw body. -/
structure RequestBody where
  tool : Option String
  sessionId : Option String
  timeout : Option Int
  language : Option String
  code : Option String
  filename : Option String
  fileContent : Option String
  conversionScript : Option String
deriving DecidableEq

/-- `z.string().min(1)`: present and non-empty. -/
def nonEmptyString : Option String → Option String
  | some s => if s = "" then none else some s
  | none => none

/-- `z.enum(["python","node","bun","bash"]).default("bash")`. -/
def parseLanguage : Option String → Option CodeLanguage
  | none => some .bash
  | some s =>
    if s = "python" then some .python
    else if s = "node" then some .node
    else if s = "bun" then some .bun
    else if s = "bash" then some .bash
    else none

/-- `CodeExecutionInputSchema.safeParse` on a body: optional language with
default `bash`, non-empty `code`, `filename` defaulting to `script.js`. -/
def parseCodeExecution (b : RequestBody) : Option CodeExecutionInput :=
  match parseLanguage b.language, nonEmptyString b.code with
  | some lang, some code => some ⟨lang, code, b.filename.getD "script.js"⟩
  | _, _ => none

/-- `DocumentConverterInputSchema.safeParse` on a body: non-empty
`fileContent`, `filename` and `conversionScript`. -/
def parseDocumentConverter (b : RequestBody) : Option DocumentConverterInput :=
  match nonEmptyString b.fileContent, nonEmptyString b.filename,
      nonEmptyString b.conversionScript with
  | some fc, some fn, some cs => some ⟨fc, fn, cs⟩
  | _, _, _ => none

/-- The tagged union of parsed tool parameters. -/
inductive ToolRequest where
  | codeExecution (input : CodeExecutionInput)
  | documentConverter (input : DocumentConverterInput)
deriving DecidableEq

/-- `ToolRequestSchema.safeParse`: `z.union` tries the members in order and
returns the first success, regardless of the body's `tool` field. -/
def parseToolRequest (b : RequestBody) : Option ToolRequest :=
  match parseCodeExecution b with
  | some c => some (.codeExecution c)
  | none =>
    match parseDocumentConverter b with
    | some d => some (.documentConverter d)
    | none => none

/-- `ToolRequestSchemaAgentParams.safeParse`: non-empty `tool` and
`sessionId`, integer `timeout` in `[1, 900]` defaulting to 30. -/
def parseAgentParams (b : RequestBody) : Option AgentParams :=
  match nonEmptyString b.tool, nonEmptyString b.sessionId with
  | some t, some s =>
    match b.timeout with
    | none => some ⟨t, s, 30⟩
    | some n => if 1 ≤ n ∧ n ≤ 900 then some ⟨t, s, n⟩ else none
  | _, _ => none

/-- The constraint `CodeExecutionInputSchema` declares on an already-typed
value: the code is non-empty (language and filename carry no constraint
beyond their type). -/
def codeExecutionValid (c : CodeExecutionInput) : Prop := c.code ≠ ""

/-- The constraint `DocumentConverterInputSchema` declares on an
already-typed value: all three fields non-empty. -/
def documentConverterValid (d : DocumentConverterInput) : Prop :=
  d.fileContent ≠ "" ∧ d.filename ≠ "" ∧ d.conversionScript ≠ ""

/-- A parsed union value satisfying its own variant's declared constraints. -/
def toolRequestValid : ToolRequest → Prop
  | .codeExecution c => codeExecutionValid c
  | .documentConverter d => documentConverterValid d

/-- C5 counterexample: the body
`{tool: "document_converter", sessionId: "s", code: "x"}` passes both
`ToolRequestSchemaAgentParams` and `ToolRequestSchema` — the plain
`z.union` accepts it through the code-execution variant, ignoring the `tool`
field — yet it does not satisfy the document-converter variant schema named
by its `tool` field, so the handler receives a value of the other variant's
shape. -/
theorem toolRequest_union_ignores_tool_field :
    parseAgentParams ⟨some "document_converter", some "s", none, none, some "x",
        none, none, none⟩ =
      some ⟨"document_converter", "s", 30⟩ ∧
    parseToolRequest ⟨some "document_converter", some "s", none, none, some "x",
        none, none, none⟩ =
      some (.codeExecution ⟨.bash, "x", "script.js"⟩) ∧
    parseDocumentConverter ⟨some "document_converter", some "s", none, none, some "x",
        none, none, none⟩ = none := by
  refine ⟨rfl, ?_, rfl⟩
  decide

theorem nonEmptyString_ne (o : Option String) (s : String) (h : nonEmptyString o = some s) :
    s ≠ "" := by
  match o with
  | none => simp [nonEmptyString] at h
  | some t =>
    by_cases ht : t = ""
    · simp [nonEmptyString, ht] at h
    · simp [nonEmptyString, ht] at h
      subst h
      exact ht

/-- C5 as amended: every body accepted by the dispatcher's two validations
has parameters satisfying the declared shape of some registered variant —
the first union member that accepts it — but not necessarily the variant of
the handler named by its `tool` field; that handler may receive a value of
the other variant's shape. -/
theorem parseToolRequest_sound (b : RequestBody) (tr : ToolRequest)
    (h : parseToolRequest b = some tr) : toolRequestValid tr := by
  unfold parseToolRequest at h
  cases hc : parseCodeExecution b with
  | some c =>
    rw [hc] at h
    cases h
    unfold toolRequestValid codeExecutionValid
    unfold parseCodeExecution at hc
    cases hl : parseLanguage b.language with
    | none => rw [hl] at hc; simp at hc
    | some lang =>
      cases hcode : nonEmptyString b.code with
      | none => rw [hl, hcode] at hc; simp at hc
      | some code =>
        rw [hl, hcode] at hc
        simp at hc
        rw [← hc]
        exact nonEmptyString_ne _ _ hcode
  | none =>
    rw [hc] at h
    cases hd : parseDocumentConverter b with
    | none => rw [hd] at h; simp at h
    | some d =>
      rw [hd] at h
      cases h
      unfold toolRequestValid documentConverterValid
      unfold parseDocumentConverter at hd
      cases h1 : nonEmptyString b.fileContent with
      | none => rw [h1] at hd; simp at hd
      | some fc =>
        cases h2 : nonEmptyString b.filename with
        | none => rw [h1, h2] at hd; simp at hd
        | some fn =>
          cases h3 : nonEmptyString b.conversionScript with
          | none => rw [h1, h2, h3] at hd; simp at hd
          | some cs =>
            rw [h1, h2, h3] at hd
            simp at hd
            rw [← hd]
            exact ⟨nonEmptyString_ne _ _ h1, nonEmptyString_ne _ _ h2,
              nonEmptyString_ne _ _ h3⟩

/-- Witness for C5's amended statement at the counterexample body: the value
the union parses is valid for the code-execution variant. -/
theorem parseToolRequest_sound_witness :
    toolRequestValid (.codeExecution ⟨.bash, "x", "script.js"⟩) :=
  parseToolRequest_sound
    ⟨some "document_converter", some "s", none, none, some "x", none, none, none⟩
    (.codeExecution ⟨.bash, "x", "script.js"⟩) (by decide)

/-! ## Tool Registry (`packages/tools/supervisor/src/tools/tool-handler.ts`)

`ToolRegistry` wraps a JS `Map<string, ToolHandler>`; `register` keys the
handler by its own `toolType`. A handler is modelled by its identifying
metadata fields (its `execute` behaviour is modelled separately per tool);
`getTools()` projects exactly these fields. -/

/-- A registered tool handler, by its metadata fields. -/
structure ToolHandler where
  toolType : String
  name : String
  description : String
deriving DecidableEq

/-- The registry's backing `Map`, keyed by tool type. -/
abbrev ToolRegistry := List (String × ToolHandler)

/-- `registry.register(handler)`: `handlers.set(handler.toolType, handler)`. -/
def registerTool (r : ToolRegistry) (h : ToolHandler) : ToolRegistry :=
  mapSet r h.toolType h

/-- `registry.get(toolType)`. -/
def getTool (r : ToolRegistry) (toolType : String) : Option ToolHandler :=
  mapGet r toolType

/-- `registry.has(toolType)`. -/
def hasTool (r : ToolRegistry) (toolType : String) : Bool :=
  (mapGet r toolType).isSome

/-- `registry.getToolTypes()`: the map's keys in insertion order. -/
def getToolTypes (r : ToolRegistry) : List String :=
  mapKeys r

/-- `registry.getTools()`: the metadata of every registered handler. -/
def getTools (r : ToolRegistry) : List ToolHandler :=
  r.map Prod.snd

/-- The invariant every registry reachable through `register` satisfies:
keys are distinct and each entry is keyed by its handler's own `toolType`. -/
def registryWF (r : ToolRegistry) : Prop :=
  (mapKeys r).Nodup ∧ ∀ p ∈ r, p.1 = p.2.toolType

instance (r : ToolRegistry) : Decidable (registryWF r) := by
  unfold registryWF
  infer_instance

theorem getTools_count_eq_keys_count (r : ToolRegistry) (k : String)
    (hkeyed : ∀ p ∈ r, p.1 = p.2.toolType) :
    ((getTools r).filter (fun m => m.toolType == k)).length = (mapKeys r).count k := by
  induction r with
  | nil => simp [getTools, mapKeys]
  | cons p rest ih =>
    obtain ⟨k', h'⟩ := p
    have hk' : k' = h'.toolType := hkeyed (k', h') (by simp)
    have ihr := ih (fun q hq => hkeyed q (by simp [hq]))
    simp only [getTools, List.map_cons, List.filter_cons, mapKeys, List.count_cons]
    by_cases he : h'.toolType = k
    · have hk : k' = k := hk'.trans he
      simp only [he, hk, beq_self_eq_true, if_true, List.length_cons]
      have := ihr
      simp only [getTools, mapKeys] at this
      omega
    · have hk : ¬ (k' = k) := by rw [hk']; exact he
      simp only [beq_iff_eq, he, hk, if_false]
      simpa [getTools, mapKeys] using ihr

theorem registryWF_register (r : ToolRegistry) (h : ToolHandler) (hwf : registryWF r) :
    registryWF (registerTool r h) := by
  constructor
  · exact mapKeys_mapSet_nodup _ _ _ hwf.1
  · intro p hp
    unfold registerTool at hp
    induction r with
    | nil =>
      simp [mapSet] at hp
      simp [hp]
    | cons q rest ih =>
      obtain ⟨k₀, h₀⟩ := q
      by_cases hk : k₀ = h.toolType
      · rw [hk] at hp
        simp [mapSet] at hp
        rcases hp with hp | hp
        · simp [hp]
        · exact hwf.2 p (by simp [hp])
      · simp [mapSet, hk] at hp
        rcases hp with hp | hp
        · exact hwf.2 p (by simp [hp])
        · exact ih ⟨(List.nodup_cons.mp hwf.1).2, fun q hq => hwf.2 q (by simp [hq])⟩ hp

/-- C10: registering a handler makes `get` return it and `has` true, its tool
type appears exactly once in `getToolTypes()` and its metadata exactly once
in `getTools()`, other entries are untouched, and a second registration with
the same tool type replaces the first while `getToolTypes()` stays
duplicate-free. -/
theorem toolRegistry_register_spec (r : ToolRegistry) (h h₂ : ToolHandler)
    (hwf : registryWF r) (hsame : h₂.toolType = h.toolType) :
    getTool (registerTool r h) h.toolType = some h ∧
    hasTool (registerTool r h) h.toolType = true ∧
    (getToolTypes (registerTool r h)).count h.toolType = 1 ∧
    ((getTools (registerTool r h)).filter (fun m => m.toolType == h.toolType)).length = 1 ∧
    (∀ k, k ≠ h.toolType → getTool (registerTool r h) k = getTool r k) ∧
    getTool (registerTool (registerTool r h) h₂) h.toolType = some h₂ ∧
    (getToolTypes (registerTool (registerTool r h) h₂)).Nodup := by
  have hwf' : registryWF (registerTool r h) := registryWF_register r h hwf
  have hget : getTool (registerTool r h) h.toolType = some h :=
    mapGet_mapSet_self r h.toolType h
  have hmem : h.toolType ∈ mapKeys (registerTool r h) := by
    rw [registerTool, mapKeys_mapSet]
    rcases Decidable.em (h.toolType ∈ mapKeys r) with hm | hm <;> simp [hm]
  refine ⟨hget, ?_, ?_, ?_, ?_, ?_, ?_⟩
  · simp [hasTool, getTool] at hget ⊢
    simp [hget]
  · exact List.count_eq_one_of_mem hwf'.1 hmem
  · rw [getTools_count_eq_keys_count _ _ hwf'.2]
    exact List.count_eq_one_of_mem hwf'.1 hmem
  · intro k hk
    exact mapGet_mapSet_ne r h.toolType k h hk
  · rw [← hsame]
    exact mapGet_mapSet_self _ h₂.toolType h₂
  · exact (registryWF_register _ h₂ hwf').1

/-- Witness for C10 at a concrete registry: registering the document
converter over a registry holding the code-execution handler, then a
replacement registration for the same tool type. -/
theorem toolRegistry_register_spec_witness :
    getTool (registerTool [("code_execution", ⟨"code_execution", "Code Execution", "runs code"⟩)]
        ⟨"document_converter", "Document Converter", "converts documents"⟩)
      "document_converter" =
      some ⟨"document_converter", "Document Converter", "converts documents"⟩ := by
  exact (toolRegistry_register_spec
    [("code_execution", ⟨"code_execution", "Code Execution", "runs code"⟩)]
    ⟨"document_converter", "Document Converter", "converts documents"⟩
    ⟨"document_converter", "Document Converter v2", "converts documents"⟩
    (by decide) (by decide)).1

/-! ## Request dispatcher, validation path (`POST /tools/execute`)

The route handler computes `ToolRequestSchema.safeParse(request.body)` and
`ToolRequestSchemaAgentParams.safeParse(request.body)` (both pure), replies
400 on an agent-params failure, then 400 on a tool-params failure, then
resolves the handler and replies 400 with `availableTools:
toolRegistry.getToolTypes()` when none is registered for the `tool` field;
only past all three checks does it call `createWorkspace` (which makes the
job's directory) and `handler.execute` (which launches a container). The
filesystem effect is modelled as the list of directories created so far. -/

/-- The externally visible outcome of the dispatch prologue. -/
inductive DispatchResponse where
  | invalidAgentParams
  | invalidToolParams
  | unknownTool (availableTools : List String)
  | dispatched (ap : AgentParams) (tr : ToolRequest)
deriving DecidableEq

/-- The dispatch prologue's result together with its side effects: the
directories existing afterwards and whether a container was launched. -/
structure DispatchStep where
  response : DispatchResponse
  dirs : List String
  containerLaunched : Bool
deriving DecidableEq

/-- The validation-and-dispatch prologue of `POST /tools/execute` for one
request body, against the directory list `dirs` existing beforehand
(`jobId` stands for the generated `nanoid(6)`). -/
def executeRoute (reg : ToolRegistry) (base jobId : String) (b : RequestBody)
    (dirs : List String) : DispatchStep :=
  match parseAgentParams b with
  | none => ⟨.invalidAgentParams, dirs, false⟩
  | some ap =>
    match parseToolRequest b with
    | none => ⟨.invalidToolParams, dirs, false⟩
    | some tr =>
      match getTool reg ap.tool with
      | none => ⟨.unknownTool (getToolTypes reg), dirs, false⟩
      | some _ =>
        ⟨.dispatched ap tr, dirs ++ [getJobWorkDir base ap.sessionId jobId], true⟩

/-- C4: on every error path — agent-params validation failure, tool-params
validation failure, or a `tool` field naming no registered handler — the
dispatcher replies with the corresponding structured error (carrying the
registry's tool-type list in the unknown-tool case), creates no workspace
directory (the filesystem state is unchanged) and launches no container. -/
theorem executeRoute_error_paths (reg : ToolRegistry) (base jobId : String)
    (b : RequestBody) (dirs : List String) :
    (parseAgentParams b = none →
      executeRoute reg base jobId b dirs = ⟨.invalidAgentParams, dirs, false⟩) ∧
    (∀ ap, parseAgentParams b = some ap → parseToolRequest b = none →
      executeRoute reg base jobId b dirs = ⟨.invalidToolParams, dirs, false⟩) ∧
    (∀ ap tr, parseAgentParams b = some ap → parseToolRequest b = some tr →
      getTool reg ap.tool = none →
      executeRoute reg base jobId b dirs =
        ⟨.unknownTool (getToolTypes reg), dirs, false⟩) := by
  refine ⟨?_, ?_, ?_⟩
  · intro h
    simp [executeRoute, h]
  · intro ap hap htr
    simp [executeRoute, hap, htr]
  · intro ap tr hap htr hget
    simp [executeRoute, hap, htr, hget]

/-- Witness for C4: a body naming the unregistered tool `nope` against a
one-handler registry is rejected with that registry's tool-type list, and
the directory list is untouched. -/
theorem executeRoute_error_paths_witness :
    executeRoute [("code_execution", ⟨"code_execution", "Code Execution", "runs code"⟩)]
        "/root/.aa-storage" "j1"
        ⟨some "nope", some "s", none, none, some "x", none, none, none⟩
        ["/root/.aa-storage/s0/job-j0"] =
      ⟨.unknownTool ["code_execution"], ["/root/.aa-storage/s0/job-j0"], false⟩ := by
  exact (executeRoute_error_paths
      [("code_execution", ⟨"code_execution", "Code Execution", "runs code"⟩)]
      "/root/.aa-storage" "j1"
      ⟨some "nope", some "s", none, none, some "x", none, none, none⟩
      ["/root/.aa-storage/s0/job-j0"]).2.2
    ⟨"nope", "s", 30⟩ (.codeExecution ⟨.bash, "x", "script.js"⟩)
    (by decide) (by decide) (by decide)

/-! ## Tool handler execution: the timeout race

`DocumentConverterTool.execute` races `container.wait()` against a timer of
`timeout * 1000` ms: if the timer fires first it kills the container, sets
the exit code to the sentinel `-1` and pushes
`\nConversion timed out after <elapsed>s (timeout was set to <timeout>s)\n`
onto the stderr accumulator. `CodeExecutionTool.execute` has no such race:
it awaits `container.wait()` unconditionally and never reads a timeout.

A container run is abstracted by the wall-clock second at which `wait()`
resolves and the status code it reports; the measured elapsed-time string
is a parameter (it comes from `Date.now()`). The race is resolved in favour
of normal completion when the container finishes within the timeout. -/

/-- The observable behaviour of one container: when `container.wait()`
resolves (in seconds since `start`) and with which status code. -/
structure ContainerRun where
  finishTime : Nat
  statusCode : Int
deriving DecidableEq

/-- The timeout message appended to the stderr accumulator by
`DocumentConverterTool.execute`. -/
def timeoutMessage (elapsed : String) (timeout : Nat) : String :=
  "\nConversion timed out after " ++ elapsed ++ "s (timeout was set to " ++
    toString timeout ++ "s)\n"

/-- `DocumentConverterTool.execute`'s exit-code/stderr outcome: the race of
`container.wait()` against the `timeout`-second timer. -/
def docConvExecute (run : ContainerRun) (timeout : Nat) (elapsed : String)
    (stderrChunks : List String) : Int × List String :=
  if run.finishTime ≤ timeout then (run.statusCode, stderrChunks)
  else (-1, stderrChunks ++ [timeoutMessage elapsed timeout])

/-- `CodeExecutionTool.execute`'s exit-code/stderr outcome: it awaits
`container.wait()` with no timer, no kill and no message — the context's
timeout is never consulted. -/
def codeExecExecute (run : ContainerRun) (timeout : Nat)
    (stderrChunks : List String) : Int × List String :=
  (run.statusCode, stderrChunks)

/-- C2: the claim fails for the code-execution handler. A code-execution job
whose container reaches its terminal state only after the configured timeout
(here: timeout 1 s, the container finishes at 2 s with status 0) is not
killed and yields the container's own exit code with an untouched stderr
accumulator — no sentinel `-1`, no timeout message — whereas the
document-converter handler at the same run produces the sentinel and the
message naming elapsed time and timeout. -/
theorem codeExecution_ignores_timeout :
    codeExecExecute ⟨2, 0⟩ 1 [] = (0, []) ∧
    (codeExecExecute ⟨2, 0⟩ 1 []).1 ≠ -1 ∧
    docConvExecute ⟨2, 0⟩ 1 "2.00" [] = (-1, [timeoutMessage "2.00" 1]) ∧
    (timeoutMessage "2.00" 1 =
      "\nConversion timed out after 2.00s (timeout was set to 1s)\n") := by
  refine ⟨rfl, by decide, ?_, rfl⟩
  simp [docConvExecute]

/-! ## Response assembly: stdout/stderr fields (`POST /tools/execute`)

The dispatcher builds the response with
`...(result.stdout && { stdout: result.stdout })` and
`...(result.stdoutTrimmed && { stdoutTrimmed: result.stdoutTrimmed })`
(and identically for stderr): a field is present exactly when the handler's
value is truthy — for the string that means present and non-empty, for the
flag present and `true`. -/

/-- Modelled from the spec: the captured-output trimming step that fills
`ToolExecutionResult.stdout`/`stdoutTrimmed` (and stderr alike). It is
missing from `src/` — only the optional fields it fills
(`tool-handler.ts`), the response schema's doc strings ("omitted if empty,
trimmed if > 10KB") and the dispatcher's conditional spread are present —
and is modelled from the spec: content above the fixed 10 KB ceiling is
truncated and flagged trimmed; content at or below the ceiling is passed in
full with no flag. -/
def captureOutput (content : String) : Option String × Option Bool :=
  if 10 * 1024 < content.length then
    (some (String.mk (content.data.take (10 * 1024))), some true)
  else (some content, none)

/-- The dispatcher's `...(value && { field: value })` spread for a string
field: absent when the handler supplied nothing or the empty string. -/
def assembleField (value : Option String) : Option String :=
  match value with
  | none => none
  | some s => if s = "" then none else some s

/-- The dispatcher's `...(flag && { flag })` spread for a boolean flag. -/
def assembleFlag (flag : Option Bool) : Option Bool :=
  match flag with
  | none => none
  | some b => if b then some true else none

/-- The `stdout` (resp. `stderr`) field of the response for a captured
stream content — the two streams go through the same code path. -/
def responseField (content : String) : Option String :=
  assembleField (captureOutput content).1

/-- The `stdoutTrimmed` (resp. `stderrTrimmed`) flag of the response. -/
def responseTrimmedFlag (content : String) : Option Bool :=
  assembleFlag (captureOutput content).2

/-- C6: the response's stdout/stderr field is present exactly when the
captured stream content is non-empty; content above the 10 KB ceiling is
truncated to the ceiling and accompanied by the trimmed flag; content at or
below the ceiling is returned in full with no flag. -/
theorem response_output_trimming (content : String) :
    responseField content =
      (if content = "" then none
       else if content.length ≤ 10 * 1024 then some content
       else some (String.mk (content.data.take (10 * 1024)))) ∧
    responseTrimmedFlag content =
      (if 10 * 1024 < content.length then some true else none) ∧
    (responseField content = none ↔ content = "") := by
  have hlen : content.length = content.data.length := rfl
  have hdata : content = "" ↔ content.data = [] := by
    constructor
    · intro h
      rw [h]
    · intro h
      cases content with
      | mk l =>
        simp only at h
        rw [h]
  by_cases hlong : 10 * 1024 < content.length
  · have hne : ¬ content = "" := by
      intro h
      rw [hlen, hdata.mp h] at hlong
      simp at hlong
    have htake : ¬ String.mk (content.data.take (10 * 1024)) = "" := by
      intro h
      have hnil : (content.data.take (10 * 1024)) = [] := by
        have := congrArg String.data h
        simpa using this
      have hl := congrArg List.length hnil
      simp [List.length_take] at hl
      omega
    have hnotshort : ¬ content.length ≤ 10 * 1024 := not_le.mpr hlong
    refine ⟨?_, ?_, ?_⟩
    · simp [responseField, assembleField, captureOutput, hlong, hne, htake, hnotshort]
    · simp [responseTrimmedFlag, assembleFlag, captureOutput, hlong]
    · simp [responseField, assembleField, captureOutput, hlong, htake, hne]
  · by_cases hempty : content = ""
    · refine ⟨?_, ?_, ?_⟩
      · simp [responseField, assembleField, captureOutput, hlong, hempty]
      · simp [responseTrimmedFlag, assembleFlag, captureOutput, hlong]
      · simp [responseField, assembleField, captureOutput, hlong, hempty]
    · have hshort : content.length ≤ 10 * 1024 := not_lt.mp hlong
      refine ⟨?_, ?_, ?_⟩
      · simp [responseField, assembleField, captureOutput, hlong, hempty, hshort]
      · simp [responseTrimmedFlag, assembleFlag, captureOutput, hlong]
      · simp [responseField, assembleField, captureOutput, hlong, hempty]
